import Mathlib

/-!
Verification development for the checkers rules engine in `src/checkers.js`
(the final `SimpleCheckers` class, the one instantiated at the end of the
file).  JavaScript numbers holding board coordinates are modelled as `Int`,
the 8×8 board as a flat list of 64 `Option Piece` cells (row-major, as the
nested JS arrays), and the mutable `this` object as an explicit `GameState`
value threaded through the operations.  DOM rendering, console logging,
timers, network calls and the `aiThinking` re-entrancy flag are side effects
outside the game state and are not modelled; the end-of-game message string
passed to `endGame` is kept in the state (field `endMessage`) because it is
the only record of the declared winner.  Identifiers ending in the JS word
for algebraic coordinates use `Alg` instead (e.g. `positionToAlg` embeds the
JS `positionToNotation`).
-/

namespace Checkers

/-- Piece colour, the JS strings `'red'` / `'white'`. -/
inductive Color where
  | red : Color
  | white : Color
deriving DecidableEq, Repr

/-- The opposing colour (`currentPlayer === 'red' ? 'white' : 'red'`). -/
def Color.opponent : Color → Color
  | Color.red => Color.white
  | Color.white => Color.red

/-- A piece `{ color, isKing }` as created by `createBoard`. -/
structure Piece where
  color : Color
  isKing : Bool
deriving DecidableEq, Repr

/-- A move object as pushed by `getValidMoves`:
`{ row, col, isJump }` for simple moves and
`{ row, col, isJump: true, jumpRow, jumpCol }` for jumps.  For simple moves
the JS object has no `jumpRow`/`jumpCol` fields; here they are 0 and
meaningless when `isJump = false`. -/
structure MoveT where
  row : Int
  col : Int
  isJump : Bool
  jumpRow : Int
  jumpCol : Int
deriving DecidableEq, Repr

/-- The board: the 8×8 nested JS array flattened row-major to 64 cells. -/
abbrev Board := List (Option Piece)

/-- Flat index of cell `(r, c)`. -/
def posIdx (r c : Int) : Nat := (r * 8 + c).toNat

/-- `isValidPos(row, col)`: `row >= 0 && row < 8 && col >= 0 && col < 8`. -/
def validPos (r c : Int) : Prop := 0 ≤ r ∧ r < 8 ∧ 0 ≤ c ∧ c < 8

instance (r c : Int) : Decidable (validPos r c) := by
  unfold validPos; infer_instance

/-- Read `board[r][c]`; out-of-range reads give `none` (JS `undefined`). -/
def getCell (b : Board) (r c : Int) : Option Piece :=
  if validPos r c then (b[posIdx r c]?).getD none else none

/-- Write `board[r][c] = v`; the engine only ever writes in-range cells, and
an out-of-range write is modelled as a no-op. -/
def setCell (b : Board) (r c : Int) (v : Option Piece) : Board :=
  if validPos r c then b.set (posIdx r c) v else b

/-- `createBoard()`: red pieces on the dark squares of rows 0–2, white pieces
on the dark squares of rows 5–7, every other cell `null`. -/
def createBoard : Board :=
  (List.range 64).map (fun i =>
    let r := i / 8
    let c := i % 8
    if (r + c) % 2 = 1 then
      if r < 3 then some { color := Color.red, isKing := false }
      else if 5 ≤ r then some { color := Color.white, isKing := false }
      else none
    else none)

/-- The file letters `['A', 'B', 'C', 'D', 'E', 'F', 'G', 'H']`. -/
def filesList : List Char := ['A', 'B', 'C', 'D', 'E', 'F', 'G', 'H']

/-- `positionToNotation(row, col)` from the JS source: `files[col] + (8 - row)`.
An out-of-range column reads `files[col] = undefined`, which JS renders as
the string `"undefined"`. -/
def positionToAlg (row col : Int) : String :=
  (if 0 ≤ col ∧ col < 8 then String.mk [filesList.getD col.toNat ' '] else "undefined")
    ++ toString (8 - row)

/-- JS `Array.prototype.indexOf`: index of the element, `-1` when absent. -/
def jsIndexOf (xs : List Char) (ch : Char) : Int :=
  match xs.indexOf? ch with
  | some i => (i : Int)
  | none => -1

/-- JS `parseInt` applied to the single character `notation[1]`.  A digit
parses to its value; anything else gives `NaN`, modelled by the sentinel
`10000` so that `8 - parseDigit ch` stays negative and fails the caller's
`row >= 0` checks just as `NaN` does. -/
def parseDigit (ch : Char) : Int :=
  if '0' ≤ ch ∧ ch ≤ '9' then ((ch.toNat - 48 : Nat) : Int) else 10000

/-- `notationToPosition(notation)` from the JS source:
`col = files.indexOf(notation[0].toUpperCase())`, `row = 8 - parseInt(notation[1])`,
returned as the pair `(row, col)`. -/
def algToPosition (s : String) : Int × Int :=
  let c0 := s.toList.getD 0 ' '
  let c1 := s.toList.getD 1 ' '
  let col := jsIndexOf filesList c0.toUpper
  let row := 8 - parseDigit c1
  (row, col)

/-- Direction list chosen at the top of `getValidMoves`: all four diagonals
for kings, forward diagonals otherwise (down-board for red, up for white). -/
def dirsFor (piece : Piece) : List (Int × Int) :=
  if piece.isKing then [(-1, -1), (-1, 1), (1, -1), (1, 1)]
  else if piece.color = Color.red then [(1, -1), (1, 1)]
  else [(-1, -1), (-1, 1)]

/-- The simple (non-jump) moves pushed by the first `directions.forEach` loop
of `getValidMoves`: adjacent diagonal square in bounds and empty. -/
def simpleMovesAt (b : Board) (piece : Piece) (r c : Int) : List MoveT :=
  (dirsFor piece).filterMap (fun d =>
    let nr := r + d.1
    let nc := c + d.2
    if validPos nr nc ∧ getCell b nr nc = none then
      some { row := nr, col := nc, isJump := false, jumpRow := 0, jumpCol := 0 }
    else none)

/-- The jumps pushed by the second `directions.forEach` loop of
`getValidMoves`: both the intermediate and the landing square in bounds, the
intermediate square holding an opposing piece, the landing square empty. -/
def jumpMovesAt (b : Board) (piece : Piece) (r c : Int) : List MoveT :=
  (dirsFor piece).filterMap (fun d =>
    let jr := r + d.1
    let jc := c + d.2
    let lr := r + d.1 * 2
    let lc := c + d.2 * 2
    if validPos jr jc ∧ validPos lr lc then
      match getCell b jr jc with
      | some jp =>
          if jp.color ≠ piece.color ∧ getCell b lr lc = none then
            some { row := lr, col := lc, isJump := true, jumpRow := jr, jumpCol := jc }
          else none
      | none => none
    else none)

/-- `getValidMoves(row, col)`: empty when the square holds no piece of the
current player; otherwise simple moves and jumps in source order, restricted
to the jumps alone when at least one jump exists (per-piece mandatory
capture). -/
def getValidMoves (b : Board) (player : Color) (r c : Int) : List MoveT :=
  match getCell b r c with
  | none => []
  | some piece =>
      if piece.color = player then
        let moves := simpleMovesAt b piece r c ++ jumpMovesAt b piece r c
        let jumps := moves.filter (fun m => m.isJump)
        if jumps.length > 0 then jumps else moves
      else []

/-- A record of the move history (`moveRecord` in `makeMove`).  The JS
`timestamp` field is wall-clock I/O and is not modelled. -/
structure CapturedPiece where
  row : Int
  col : Int
  alg : String
  color : Color
  isKing : Bool
deriving DecidableEq, Repr

structure MoveRecord where
  fullMoveNumber : Int
  player : Color
  fromRow : Int
  fromCol : Int
  fromAlg : String
  toRow : Int
  toCol : Int
  toAlg : String
  pieceColor : Color
  pieceIsKing : Bool
  wasPromoted : Bool
  isJump : Bool
  captured : Option CapturedPiece
deriving DecidableEq, Repr

/-- The engine's mutable session state (the `this` fields of the final
`SimpleCheckers` class that the rules engine reads or writes). -/
structure GameState where
  board : Board
  currentPlayer : Color
  selectedPiece : Option (Int × Int)
  validMoves : List MoveT
  gameOver : Bool
  redPieces : Int
  whitePieces : Int
  moveHistory : List MoveRecord
  fullMoveNumber : Int
  endMessage : Option String
deriving DecidableEq, Repr

/-- The constructor / `newGame` state. -/
def initialState : GameState where
  board := createBoard
  currentPlayer := Color.red
  selectedPiece := none
  validMoves := []
  gameOver := false
  redPieces := 12
  whitePieces := 12
  moveHistory := []
  fullMoveNumber := 1
  endMessage := none

/-- `isValidMove(row, col)`: membership of the target square in
`this.validMoves`. -/
def isValidMove (vm : List MoveT) (row col : Int) : Bool :=
  vm.any (fun m => decide (m.row = row ∧ m.col = col))

/-- `selectPiece(row, col)` (engine part: stores the selection and its valid
moves; highlighting is DOM-only). -/
def selectPiece (s : GameState) (row col : Int) : GameState :=
  { s with selectedPiece := some (row, col)
         , validMoves := getValidMoves s.board s.currentPlayer row col }

/-- `clearSelection()` (engine part). -/
def clearSelection (s : GameState) : GameState :=
  { s with selectedPiece := none, validMoves := [] }

/-- `hasValidMoves()`: some square holds a current-player piece with a
non-empty `getValidMoves` list. -/
def hasValidMoves (s : GameState) : Bool :=
  (List.range 8).any (fun (r : Nat) => (List.range 8).any (fun (c : Nat) =>
    match getCell s.board (r : Int) (c : Int) with
    | some piece =>
        decide (piece.color = s.currentPlayer) &&
          decide ((getValidMoves s.board s.currentPlayer (r : Int) (c : Int)).length > 0)
    | none => false))

/-- `hasAvailableJumps()`: some square holds a current-player piece whose
`getValidMoves` list contains a jump. -/
def hasAvailableJumps (s : GameState) : Bool :=
  (List.range 8).any (fun (r : Nat) => (List.range 8).any (fun (c : Nat) =>
    match getCell s.board (r : Int) (c : Int) with
    | some piece =>
        decide (piece.color = s.currentPlayer) &&
          decide (((getValidMoves s.board s.currentPlayer (r : Int) (c : Int)).filter
            (fun m => m.isJump)).length > 0)
    | none => false))

/-- `switchPlayer()`: toggle `currentPlayer` and increment `fullMoveNumber`
when the new player is red. -/
def switchPlayer (s : GameState) : GameState :=
  let p := s.currentPlayer.opponent
  { s with currentPlayer := p
         , fullMoveNumber := if p = Color.red then s.fullMoveNumber + 1 else s.fullMoveNumber }

/-- `endGame(message)` (engine part): freeze the game, clear the selection
and keep the declared outcome.  Autorun/modal/database effects are I/O. -/
def endGame (s : GameState) (message : String) : GameState :=
  { s with gameOver := true
         , selectedPiece := none
         , validMoves := []
         , endMessage := some message }

/-- The JS name string of a colour (template-literal interpolation of
`this.currentPlayer`). -/
def colorName : Color → String
  | Color.red => "red"
  | Color.white => "white"

/-- The capitalised winner name computed in `checkGameOver` and `resign`. -/
def winnerName : Color → String
  | Color.red => "White"
  | Color.white => "Red"

/-- `checkGameOver()`: elimination first (red then white), then the
no-valid-moves loss for the player about to move, otherwise no change. -/
def checkGameOver (s : GameState) : GameState :=
  if s.redPieces = 0 then
    endGame s "White wins! All red pieces captured."
  else if s.whitePieces = 0 then
    endGame s "Red wins! All white pieces captured."
  else if ¬ hasValidMoves s then
    endGame s (winnerName s.currentPlayer ++ " wins! " ++
      colorName s.currentPlayer ++ " has no valid moves.")
  else s

/-- The promotion test of `makeMove`: a non-king reaching row 7 (red) or
row 0 (white). -/
def promoFlag (piece : Piece) (toRow : Int) : Bool :=
  !piece.isKing &&
    (decide (piece.color = Color.red ∧ toRow = 7) ||
     decide (piece.color = Color.white ∧ toRow = 0))

/-- The move object `makeMove` works with: first looked up in
`this.validMoves`, then — if absent — in `getValidMoves(fromRow, fromCol)`.
`none` when both lookups fail (JS `move` stays `undefined`). -/
def foundMove (s : GameState) (fromRow fromCol toRow toCol : Int) : Option MoveT :=
  match s.validMoves.find? (fun m => decide (m.row = toRow ∧ m.col = toCol)) with
  | some m => some m
  | none =>
      (getValidMoves s.board s.currentPlayer fromRow fromCol).find?
        (fun m => decide (m.row = toRow ∧ m.col = toCol))

/-- `makeMove(fromRow, fromCol, toRow, toCol)`.  Mirrors the JS statement
order: relocate the piece, remove the captured piece and decrement the
opposing counter on a jump, promote, append the history record, then either
enter forced continuation (jump with further jumps from the landing square)
or switch the player and run `checkGameOver`.  When the source square is
empty the JS code throws a `TypeError` while building `moveRecord`, before
any mutation; that crash-with-no-mutation is modelled as the identity. -/
def makeMove (s : GameState) (fromRow fromCol toRow toCol : Int) : GameState :=
  match getCell s.board fromRow fromCol with
  | none => s
  | some piece =>
      let mv := foundMove s fromRow fromCol toRow toCol
      let b1 := setCell (setCell s.board toRow toCol (some piece)) fromRow fromCol none
      let cap : Option (Int × Int) :=
        match mv with
        | some m => if m.isJump then some (m.jumpRow, m.jumpCol) else none
        | none => none
      let capturedInfo : Option CapturedPiece :=
        match cap with
        | some (jr, jc) =>
            (getCell b1 jr jc).map (fun cp =>
              { row := jr, col := jc, alg := positionToAlg jr jc
              , color := cp.color, isKing := cp.isKing })
        | none => none
      let b2 :=
        match cap with
        | some (jr, jc) => setCell b1 jr jc none
        | none => b1
      let red2 :=
        match cap with
        | some _ => if piece.color = Color.red then s.redPieces else s.redPieces - 1
        | none => s.redPieces
      let white2 :=
        match cap with
        | some _ => if piece.color = Color.red then s.whitePieces - 1 else s.whitePieces
        | none => s.whitePieces
      let promoted := promoFlag piece toRow
      let b3 :=
        if promoted then setCell b2 toRow toCol (some { piece with isKing := true }) else b2
      let rec1 : MoveRecord :=
        { fullMoveNumber := s.fullMoveNumber
        , player := s.currentPlayer
        , fromRow := fromRow, fromCol := fromCol, fromAlg := positionToAlg fromRow fromCol
        , toRow := toRow, toCol := toCol, toAlg := positionToAlg toRow toCol
        , pieceColor := piece.color
        , pieceIsKing := piece.isKing
        , wasPromoted := promoted
        , isJump := cap.isSome
        , captured := capturedInfo }
      let sMid : GameState :=
        { s with board := b3, redPieces := red2, whitePieces := white2
               , moveHistory := s.moveHistory ++ [rec1] }
      if cap.isSome then
        let additionalJumps :=
          (getValidMoves b3 s.currentPlayer toRow toCol).filter (fun m => m.isJump)
        if additionalJumps.length > 0 then
          { sMid with selectedPiece := some (toRow, toCol), validMoves := additionalJumps }
        else checkGameOver (switchPlayer sMid)
      else checkGameOver (switchPlayer sMid)

/-- `handleClick(row, col)` in human-vs-human play (the mode guards and the
AI trigger are outside the rules engine): with a selection, a click on a
square in `validMoves` applies the move and clears the selection, any other
click reselects or deselects; without a selection, a click selects an own
piece. -/
def handleClick (s : GameState) (row col : Int) : GameState :=
  let piece := getCell s.board row col
  match s.selectedPiece with
  | some sel =>
      if isValidMove s.validMoves row col then
        clearSelection (makeMove s sel.1 sel.2 row col)
      else
        let s' := clearSelection s
        match piece with
        | some p => if p.color = s.currentPlayer then selectPiece s' row col else s'
        | none => s'
  | none =>
      match piece with
      | some p => if p.color = s.currentPlayer then selectPiece s row col else s
      | none => s

/-- The board click listener installed by `setupEvents`:
`if (this.gameOver || this.aiThinking) return;` then `handleClick`.
`aiThinking` (re-entrancy during a network call) is not modelled. -/
def boardClick (s : GameState) (row col : Int) : GameState :=
  if s.gameOver then s else handleClick s row col

/-- `offerDraw()`: rejected after game over; otherwise ends the game in a
draw when the `confirm` dialog is accepted. -/
def offerDraw (s : GameState) (accept : Bool) : GameState :=
  if s.gameOver then s
  else if accept then endGame s "Game ended in a draw by agreement." else s

/-- `resign()`: rejected after game over; otherwise the opponent wins when
the `confirm` dialog is accepted. -/
def resign (s : GameState) (accept : Bool) : GameState :=
  if s.gameOver then s
  else if accept then endGame s (winnerName s.currentPlayer ++ " wins by resignation!")
  else s

/-- One entry of the `allMoves` array built at the top of `getBoardState`. -/
structure BoardMove where
  fromRow : Int
  fromCol : Int
  fromAlg : String
  toRow : Int
  toCol : Int
  toAlg : String
  isJump : Bool
  captured : Option (Int × Int × String)
  pieceColor : Color
  pieceIsKing : Bool
deriving DecidableEq, Repr

/-- The `allMoves` collection loop of `getBoardState`: every valid move of
every current-player piece, in row-major order. -/
def allMovesFor (s : GameState) : List BoardMove :=
  ((List.range 8).map (fun (r : Nat) => ((List.range 8).map (fun (c : Nat) =>
    match getCell s.board (r : Int) (c : Int) with
    | some piece =>
        if piece.color = s.currentPlayer then
          (getValidMoves s.board s.currentPlayer (r : Int) (c : Int)).map (fun mv =>
            { fromRow := (r : Int), fromCol := (c : Int)
            , fromAlg := positionToAlg (r : Int) (c : Int)
            , toRow := mv.row, toCol := mv.col, toAlg := positionToAlg mv.row mv.col
            , isJump := mv.isJump
            , captured :=
                if mv.isJump then
                  some (mv.jumpRow, mv.jumpCol, positionToAlg mv.jumpRow mv.jumpCol)
                else none
            , pieceColor := piece.color
            , pieceIsKing := piece.isKing })
        else []
    | none => [])).flatten)).flatten

/-- The globally filtered `availableMoves` of `getBoardState`: jumps only
when any jump exists, otherwise all moves. -/
def availableMovesFor (s : GameState) : List BoardMove :=
  let jumpMoves := (allMovesFor s).filter (fun m => m.isJump)
  if jumpMoves.length > 0 then jumpMoves else allMovesFor s

/-- The `mustJump` flag of `getBoardState`. -/
def mustJump (s : GameState) : Bool :=
  ((allMovesFor s).filter (fun m => m.isJump)).length > 0

/-- One entry of `formattedMoveHistory` in `getBoardState`:
`"<from>x<captured>"` for jumps (the empty string standing in for the JS
crash on a jump record with no captured piece, which `makeMove` never
produces), `"<from>-<to>"` otherwise, and `"=K"` appended on promotion. -/
def formatMoveString (mv : MoveRecord) : String :=
  let base :=
    if mv.isJump then
      mv.fromAlg ++ "x" ++ (match mv.captured with | some cp => cp.alg | none => "")
    else mv.fromAlg ++ "-" ++ mv.toAlg
  if mv.wasPromoted then base ++ "=K" else base

/-- An empty board, used to build the concrete test positions below. -/
def emptyBoard : Board := List.replicate 64 (none : Option Piece)

/-- The counting predicate for pieces of one colour. -/
def colP (color : Color) : Option Piece → Bool
  | some p => decide (p.color = color)
  | none => false

/-- Number of pieces of one colour on the board. -/
def countColor (b : Board) (color : Color) : Nat := b.countP (colP color)

/-- Number of occupied cells. -/
def countOccupied (b : Board) : Nat := b.countP (fun cell => cell.isSome)

/-- Record appended by `makeMove` (shared shape of both cases). -/
def mkRecord (s : GameState) (piece : Piece) (fr fc tr tc : Int)
    (isJ : Bool) (capt : Option CapturedPiece) : MoveRecord :=
  { fullMoveNumber := s.fullMoveNumber
  , player := s.currentPlayer
  , fromRow := fr, fromCol := fc, fromAlg := positionToAlg fr fc
  , toRow := tr, toCol := tc, toAlg := positionToAlg tr tc
  , pieceColor := piece.color
  , pieceIsKing := piece.isKing
  , wasPromoted := promoFlag piece tr
  , isJump := isJ
  , captured := capt }

/-- The structural invariant carried by every reachable state: a well-formed
64-cell board, empty light squares, and piece counters agreeing with the
board. -/
def stateInv (s : GameState) : Prop :=
  s.board.length = 64 ∧
  (∀ r c : Int, validPos r c → (r + c) % 2 = 0 → getCell s.board r c = none) ∧
  s.redPieces = (countColor s.board Color.red : Int) ∧
  s.whitePieces = (countColor s.board Color.white : Int)

/-- States reachable through the game's own entry points.  `move` is the
envelope of every `makeMove` call the code performs on a nonempty source
square: the human click path reaches `makeMove` only when `isValidMove`
accepts the target against `this.validMoves`, which at that point is either
`getValidMoves` of the selected square (set by `selectPiece`) or the
`additionalJumps` chain restriction (a sublist of `getValidMoves` of the
continuing square over the same board); the LLM auto-execution path calls
`selectPiece(from)` immediately before `makeMove(from, to)` with a target
validated against `availableMoves`.  In each case `this.validMoves` is a
sublist of `getValidMoves` of the from-square and the target is a member of
`this.validMoves`. -/
inductive Reachable : GameState → Prop where
  | init : Reachable initialState
  | select (s : GameState) (row col : Int) :
      Reachable s → Reachable (selectPiece s row col)
  | deselect (s : GameState) : Reachable s → Reachable (clearSelection s)
  | move (s : GameState) (fr fc tr tc : Int) : Reachable s →
      (∀ m ∈ s.validMoves, m ∈ getValidMoves s.board s.currentPlayer fr fc) →
      isValidMove s.validMoves tr tc = true →
      Reachable (makeMove s fr fc tr tc)
  | draw (s : GameState) (accept : Bool) :
      Reachable s → Reachable (offerDraw s accept)
  | resignation (s : GameState) (accept : Bool) :
      Reachable s → Reachable (resign s accept)

/-! ### Concrete test positions -/

/-- Position for C1: red at (2,1) can jump white (3,2) landing on the empty
(4,3); red at (2,5) has only simple moves. -/
def cex1 : GameState :=
  { initialState with
      board := setCell (setCell (setCell emptyBoard 2 1 (some ⟨Color.red, false⟩))
        3 2 (some ⟨Color.white, false⟩)) 2 5 (some ⟨Color.red, false⟩)
    , redPieces := 2, whitePieces := 1 }

/-- Position for C4/C8: a double jump for red — red (2,1), white (3,2) and
(5,4), landing squares (4,3) and (6,5) empty. -/
def cex4 : GameState :=
  { initialState with
      board := setCell (setCell (setCell emptyBoard 2 1 (some ⟨Color.red, false⟩))
        3 2 (some ⟨Color.white, false⟩)) 5 4 (some ⟨Color.white, false⟩)
    , redPieces := 1, whitePieces := 2 }

/-- Position for C6/C9: red (5,2) jumps white (6,3), landing on the
promotion square (7,4). -/
def cex9 : GameState :=
  { initialState with
      board := setCell (setCell emptyBoard 5 2 (some ⟨Color.red, false⟩))
        6 3 (some ⟨Color.white, false⟩)
    , redPieces := 1, whitePieces := 1 }

/-- Terminal state used by the C3 witness. -/
def cexOver : GameState := { initialState with gameOver := true }

/-- Elimination states and a blocked state for the C5 witness: the blocked
state has a red non-king on (7,0) with nowhere to go. -/
def cexRedElim : GameState := { initialState with redPieces := 0 }

def cexWhiteElim : GameState := { initialState with whitePieces := 0 }

def cexBlocked : GameState :=
  { initialState with
      board := setCell (setCell emptyBoard 7 0 (some ⟨Color.red, false⟩))
        0 1 (some ⟨Color.white, false⟩)
    , redPieces := 1, whitePieces := 1 }

/-! ### Board-cell lemmas -/

theorem posIdx_lt_of_validPos {r c : Int} (h : validPos r c) : posIdx r c < 64 := by
  unfold validPos at h
  unfold posIdx
  omega

theorem posIdx_inj {r c r' c' : Int} (h : validPos r c) (h' : validPos r' c')
    (he : posIdx r c = posIdx r' c') : r = r' ∧ c = c' := by
  unfold validPos at h h'
  unfold posIdx at he
  omega

theorem length_setCell (b : Board) (r c : Int) (v : Option Piece) :
    (setCell b r c v).length = b.length := by
  unfold setCell
  split <;> simp

theorem getCell_setCell_same {b : Board} (hb : b.length = 64) {r c : Int}
    (h : validPos r c) (v : Option Piece) : getCell (setCell b r c v) r c = v := by
  unfold getCell setCell
  rw [if_pos h, if_pos h, List.getElem?_set_self (by rw [hb]; exact posIdx_lt_of_validPos h)]
  rfl

theorem getCell_setCell_ne {b : Board} {r c r' c' : Int}
    (hne : ¬(r = r' ∧ c = c')) (v : Option Piece) :
    getCell (setCell b r c v) r' c' = getCell b r' c' := by
  unfold getCell setCell
  by_cases h' : validPos r' c'
  · rw [if_pos h', if_pos h']
    by_cases h : validPos r c
    · rw [if_pos h, List.getElem?_set_ne]
      intro he
      exact hne (posIdx_inj h h' he)
    · rw [if_neg h]
  · rw [if_neg h', if_neg h']

/-! ### Counting -/


theorem countOccupied_eq_sum (b : Board) :
    countOccupied b = countColor b Color.red + countColor b Color.white := by
  unfold countOccupied countColor
  induction b with
  | nil => rfl
  | cons hd tl ih =>
      rw [List.countP_cons, List.countP_cons, List.countP_cons]
      match hd with
      | none => simpa [colP] using ih
      | some p =>
          match hcol : p.color with
          | Color.red => simp [colP, hcol]; omega
          | Color.white => simp [colP, hcol]; omega

theorem countP_set (p : Option Piece → Bool) :
    ∀ (l : List (Option Piece)) (i : Nat), i < l.length → ∀ (v : Option Piece),
      (l.set i v).countP p + (if p ((l[i]?).getD none) then 1 else 0) =
        l.countP p + (if p v then 1 else 0) := by
  intro l
  induction l with
  | nil => intro i hi; simp at hi
  | cons hd tl ih =>
      intro i hi v
      match i with
      | 0 => simp [List.countP_cons]; omega
      | Nat.succ j =>
          have hj : j < tl.length := by simpa using hi
          have := ih j hj v
          simp only [List.set, List.countP_cons, List.getElem?_cons_succ]
          omega

theorem countP_setCell {b : Board} (hb : b.length = 64) {r c : Int}
    (h : validPos r c) (v : Option Piece) (p : Option Piece → Bool) :
    (setCell b r c v).countP p + (if p (getCell b r c) then 1 else 0) =
      b.countP p + (if p v then 1 else 0) := by
  unfold setCell getCell
  rw [if_pos h, if_pos h]
  exact countP_set p b (posIdx r c) (by rw [hb]; exact posIdx_lt_of_validPos h) v

/-! ### Soundness of `getValidMoves` -/

theorem dirsFor_pm {piece : Piece} {d : Int × Int} (hd : d ∈ dirsFor piece) :
    (d.1 = 1 ∨ d.1 = -1) ∧ (d.2 = 1 ∨ d.2 = -1) := by
  unfold dirsFor at hd
  by_cases hk : piece.isKing = true
  · rw [if_pos hk] at hd
    simp only [List.mem_cons, List.not_mem_nil, or_false] at hd
    rcases hd with h | h | h | h <;> subst h <;> decide
  · rw [if_neg hk] at hd
    by_cases hc : piece.color = Color.red
    · rw [if_pos hc] at hd
      simp only [List.mem_cons, List.not_mem_nil, or_false] at hd
      rcases hd with h | h <;> subst h <;> decide
    · rw [if_neg hc] at hd
      simp only [List.mem_cons, List.not_mem_nil, or_false] at hd
      rcases hd with h | h <;> subst h <;> decide

theorem mem_simpleMovesAt {b : Board} {piece : Piece} {r c : Int} {m : MoveT}
    (hm : m ∈ simpleMovesAt b piece r c) :
    m.isJump = false ∧ ∃ d, d ∈ dirsFor piece ∧ m.row = r + d.1 ∧ m.col = c + d.2 ∧
      validPos m.row m.col ∧ getCell b m.row m.col = none := by
  unfold simpleMovesAt at hm
  rw [List.mem_filterMap] at hm
  obtain ⟨d, hd, hf⟩ := hm
  dsimp only at hf
  split at hf
  · rename_i hcond
    cases hf
    exact ⟨rfl, d, hd, rfl, rfl, hcond.1, hcond.2⟩
  · exact absurd hf (by simp)

theorem mem_jumpMovesAt {b : Board} {piece : Piece} {r c : Int} {m : MoveT}
    (hm : m ∈ jumpMovesAt b piece r c) :
    m.isJump = true ∧ ∃ d, d ∈ dirsFor piece ∧
      m.jumpRow = r + d.1 ∧ m.jumpCol = c + d.2 ∧
      m.row = r + d.1 * 2 ∧ m.col = c + d.2 * 2 ∧
      validPos m.jumpRow m.jumpCol ∧ validPos m.row m.col ∧
      (∃ q, getCell b m.jumpRow m.jumpCol = some q ∧ q.color ≠ piece.color) ∧
      getCell b m.row m.col = none := by
  unfold jumpMovesAt at hm
  rw [List.mem_filterMap] at hm
  obtain ⟨d, hd, hf⟩ := hm
  dsimp only at hf
  split at hf
  · rename_i hpos
    split at hf
    · rename_i q hq
      split at hf
      · rename_i hcond
        cases hf
        exact ⟨rfl, d, hd, rfl, rfl, rfl, rfl, hpos.1, hpos.2, ⟨q, hq, hcond.1⟩, hcond.2⟩
      · exact absurd hf (by simp)
    · exact absurd hf (by simp)
  · exact absurd hf (by simp)

theorem getValidMoves_sound {b : Board} {player : Color} {r c : Int} {m : MoveT}
    (hm : m ∈ getValidMoves b player r c) :
    ∃ piece, getCell b r c = some piece ∧ piece.color = player ∧
      validPos m.row m.col ∧ getCell b m.row m.col = none ∧
      (m.row + m.col) % 2 = (r + c) % 2 ∧ ¬(m.row = r ∧ m.col = c) ∧
      (m.isJump = true →
        validPos m.jumpRow m.jumpCol ∧
        (m.jumpRow + m.jumpCol) % 2 = (r + c) % 2 ∧
        ¬(m.jumpRow = r ∧ m.jumpCol = c) ∧ ¬(m.jumpRow = m.row ∧ m.jumpCol = m.col) ∧
        ∃ q, getCell b m.jumpRow m.jumpCol = some q ∧ q.color ≠ piece.color) := by
  unfold getValidMoves at hm
  match hcell : getCell b r c with
  | none => rw [hcell] at hm; exact absurd hm (by simp)
  | some piece =>
      rw [hcell] at hm
      dsimp only at hm
      by_cases hcol : piece.color = player
      · rw [if_pos hcol] at hm
        have hmem : m ∈ simpleMovesAt b piece r c ++ jumpMovesAt b piece r c := by
          split at hm
          · exact List.mem_of_mem_filter hm
          · exact hm
        refine ⟨piece, rfl, hcol, ?_⟩
        rcases List.mem_append.mp hmem with hs | hj
        · obtain ⟨hnj, d, hd, hrow, hcol', hvp, hempty⟩ := mem_simpleMovesAt hs
          obtain ⟨hd1, hd2⟩ := dirsFor_pm hd
          refine ⟨hvp, hempty, ?_, ?_, ?_⟩
          · omega
          · omega
          · intro hjump; rw [hnj] at hjump; exact absurd hjump (by simp)
        · obtain ⟨hij, d, hd, hjr, hjc, hrow, hcol', hvpj, hvp, ⟨q, hq, hqc⟩, hempty⟩ :=
            mem_jumpMovesAt hj
          obtain ⟨hd1, hd2⟩ := dirsFor_pm hd
          refine ⟨hvp, hempty, ?_, ?_, ?_⟩
          · omega
          · omega
          · intro _
            refine ⟨hvpj, by omega, by omega, by omega, q, hq, hqc⟩
      · rw [if_neg hcol] at hm
        exact absurd hm (by simp)

/-- What a successful move lookup in `makeMove` guarantees: the found move
targets the requested square and came from `this.validMoves` or from
`getValidMoves(fromRow, fromCol)`. -/
theorem foundMove_spec {s : GameState} {fromRow fromCol toRow toCol : Int} {m : MoveT}
    (h : foundMove s fromRow fromCol toRow toCol = some m) :
    m.row = toRow ∧ m.col = toCol ∧
      (m ∈ s.validMoves ∨ m ∈ getValidMoves s.board s.currentPlayer fromRow fromCol) := by
  unfold foundMove at h
  match h1 : s.validMoves.find? (fun m => decide (m.row = toRow ∧ m.col = toCol)) with
  | some m' =>
      rw [h1] at h
      cases h
      have hp := List.find?_some h1
      have hmem := List.mem_of_find?_eq_some h1
      simp only [decide_eq_true_eq] at hp
      exact ⟨hp.1, hp.2, Or.inl hmem⟩
  | none =>
      rw [h1] at h
      have hp := List.find?_some h
      have hmem := List.mem_of_find?_eq_some h
      simp only [decide_eq_true_eq] at hp
      exact ⟨hp.1, hp.2, Or.inr hmem⟩

/-! ### Characterization of `makeMove` on a found move -/


theorem makeMove_simple_eq {s : GameState} {piece : Piece} {m : MoveT} {fr fc tr tc : Int}
    (hp : getCell s.board fr fc = some piece)
    (hfm : foundMove s fr fc tr tc = some m)
    (hnj : m.isJump = false) :
    makeMove s fr fc tr tc =
      checkGameOver (switchPlayer
        { s with
            board :=
              (if promoFlag piece tr then
                setCell (setCell (setCell s.board tr tc (some piece)) fr fc none) tr tc
                  (some { piece with isKing := true })
              else setCell (setCell s.board tr tc (some piece)) fr fc none)
          , moveHistory := s.moveHistory ++ [mkRecord s piece fr fc tr tc false none] }) := by
  unfold makeMove
  rw [hp]
  dsimp only
  rw [hfm]
  simp only [hnj, mkRecord, if_false, Bool.false_eq_true, Option.isSome_none]

theorem makeMove_jump_eq {s : GameState} {piece : Piece} {m : MoveT} {fr fc tr tc : Int}
    (hp : getCell s.board fr fc = some piece)
    (hfm : foundMove s fr fc tr tc = some m)
    (hj : m.isJump = true) :
    makeMove s fr fc tr tc =
      (let b1 := setCell (setCell s.board tr tc (some piece)) fr fc none
       let b2 := setCell b1 m.jumpRow m.jumpCol none
       let b3 :=
         if promoFlag piece tr then setCell b2 tr tc (some { piece with isKing := true }) else b2
       let capt : Option CapturedPiece :=
         (getCell b1 m.jumpRow m.jumpCol).map (fun cp =>
           { row := m.jumpRow, col := m.jumpCol, alg := positionToAlg m.jumpRow m.jumpCol
           , color := cp.color, isKing := cp.isKing })
       let sMid : GameState :=
         { s with board := b3
                , redPieces := if piece.color = Color.red then s.redPieces else s.redPieces - 1
                , whitePieces := if piece.color = Color.red then s.whitePieces - 1 else s.whitePieces
                , moveHistory := s.moveHistory ++ [mkRecord s piece fr fc tr tc true capt] }
       let additionalJumps :=
         (getValidMoves b3 s.currentPlayer tr tc).filter (fun x => x.isJump)
       if additionalJumps.length > 0 then
         { sMid with selectedPiece := some (tr, tc), validMoves := additionalJumps }
       else checkGameOver (switchPlayer sMid)) := by
  unfold makeMove
  rw [hp]
  dsimp only
  rw [hfm]
  simp only [hj, mkRecord, if_true, Option.isSome_some]

/-- Turn-end bookkeeping (`switchPlayer` then `checkGameOver`) never touches
the board, the piece counters or the history. -/
theorem finish_data (s : GameState) :
    (checkGameOver (switchPlayer s)).board = s.board ∧
    (checkGameOver (switchPlayer s)).redPieces = s.redPieces ∧
    (checkGameOver (switchPlayer s)).whitePieces = s.whitePieces ∧
    (checkGameOver (switchPlayer s)).moveHistory = s.moveHistory := by
  unfold checkGameOver switchPlayer endGame
  split_ifs <;> exact ⟨rfl, rfl, rfl, rfl⟩

/-! ### Colour-count bookkeeping of the board updates -/

theorem validPos_of_getCell_some {b : Board} {r c : Int} {p : Piece}
    (h : getCell b r c = some p) : validPos r c := by
  unfold getCell at h
  by_cases hv : validPos r c
  · exact hv
  · rw [if_neg hv] at h; exact absurd h (by simp)

theorem countColor_setCell_of_none {b : Board} (hb : b.length = 64) {r c : Int}
    (hv : validPos r c) (hold : getCell b r c = none) (piece : Piece) (col : Color) :
    countColor (setCell b r c (some piece)) col =
      countColor b col + (if piece.color = col then 1 else 0) := by
  have h := countP_setCell hb hv (some piece) (colP col)
  rw [hold] at h
  have hnone : colP col none = false := rfl
  have hsome : colP col (some piece) = decide (piece.color = col) := rfl
  rw [hnone, hsome] at h
  simp only [Bool.false_eq_true, if_false, decide_eq_true_eq] at h
  unfold countColor
  omega

theorem countColor_setCell_of_some {b : Board} (hb : b.length = 64) {r c : Int}
    (hv : validPos r c) {q : Piece} (hold : getCell b r c = some q)
    (v : Option Piece) (col : Color) :
    countColor (setCell b r c v) col + (if q.color = col then 1 else 0) =
      countColor b col + (if colP col v then 1 else 0) := by
  have h := countP_setCell hb hv v (colP col)
  rw [hold] at h
  have hsome : colP col (some q) = decide (q.color = col) := rfl
  rw [hsome] at h
  simp only [decide_eq_true_eq] at h
  unfold countColor
  omega

/-- Net colour-count effect of the relocate-then-maybe-promote board update
of a simple move: none. -/
theorem countColor_relocate {b : Board} {piece : Piece} {fr fc tr tc : Int}
    (hlen : b.length = 64) (hvf : validPos fr fc) (hvt : validPos tr tc)
    (hfrom : getCell b fr fc = some piece) (hto : getCell b tr tc = none)
    (hne : ¬(tr = fr ∧ tc = fc)) (pr : Bool) (col : Color) :
    countColor
      (if pr then
        setCell (setCell (setCell b tr tc (some piece)) fr fc none) tr tc
          (some { piece with isKing := true })
      else setCell (setCell b tr tc (some piece)) fr fc none) col = countColor b col := by
  have e1 := countColor_setCell_of_none hlen hvt hto piece col
  have len1 : (setCell b tr tc (some piece)).length = 64 := by rw [length_setCell, hlen]
  have hcell1 : getCell (setCell b tr tc (some piece)) fr fc = some piece := by
    rw [getCell_setCell_ne hne]; exact hfrom
  have e2 := countColor_setCell_of_some len1 hvf hcell1 none col
  have hcolnone : colP col none = false := rfl
  rw [hcolnone] at e2
  simp only [Bool.false_eq_true, if_false] at e2
  cases pr with
  | false =>
      rw [if_neg (by simp)]
      by_cases hc : piece.color = col
      · rw [if_pos hc] at e1 e2; omega
      · rw [if_neg hc] at e1 e2; omega
  | true =>
      rw [if_pos rfl]
      have lenb1 : (setCell (setCell b tr tc (some piece)) fr fc none).length = 64 := by
        rw [length_setCell, len1]
      have hcellb1 : getCell (setCell (setCell b tr tc (some piece)) fr fc none) tr tc =
          some piece := by
        rw [getCell_setCell_ne (show ¬(fr = tr ∧ fc = tc) by omega),
          getCell_setCell_same hlen hvt]
      have e3 := countColor_setCell_of_some lenb1 hvt hcellb1
        (some { piece with isKing := true }) col
      have hcolking : colP col (some { piece with isKing := true }) =
          decide (piece.color = col) := rfl
      rw [hcolking] at e3
      simp only [decide_eq_true_eq] at e3
      by_cases hc : piece.color = col
      · rw [if_pos hc] at e1 e2 e3; omega
      · rw [if_neg hc] at e1 e2 e3; omega

/-- Colour-count effect of removing the jumped piece from the relocated
board: exactly one piece of the captured colour disappears. -/
theorem countColor_capture {b : Board} {piece q : Piece} {fr fc tr tc jr jc : Int}
    (hlen : b.length = 64) (hvf : validPos fr fc) (hvt : validPos tr tc)
    (hvj : validPos jr jc)
    (hfrom : getCell b fr fc = some piece) (hto : getCell b tr tc = none)
    (hq : getCell b jr jc = some q)
    (hne : ¬(tr = fr ∧ tc = fc)) (hnejf : ¬(jr = fr ∧ jc = fc))
    (hnejt : ¬(jr = tr ∧ jc = tc)) (pr : Bool) (col : Color) :
    countColor
      (if pr then
        setCell (setCell (setCell (setCell b tr tc (some piece)) fr fc none) jr jc none)
          tr tc (some { piece with isKing := true })
      else setCell (setCell (setCell b tr tc (some piece)) fr fc none) jr jc none) col
      + (if q.color = col then 1 else 0) = countColor b col := by
  have e1 := countColor_setCell_of_none hlen hvt hto piece col
  have len1 : (setCell b tr tc (some piece)).length = 64 := by rw [length_setCell, hlen]
  have hcell1 : getCell (setCell b tr tc (some piece)) fr fc = some piece := by
    rw [getCell_setCell_ne hne]; exact hfrom
  have e2 := countColor_setCell_of_some len1 hvf hcell1 none col
  have hcolnone : colP col none = false := rfl
  rw [hcolnone] at e2
  simp only [Bool.false_eq_true, if_false] at e2
  have lenb1 : (setCell (setCell b tr tc (some piece)) fr fc none).length = 64 := by
    rw [length_setCell, len1]
  have hcellj : getCell (setCell (setCell b tr tc (some piece)) fr fc none) jr jc = some q := by
    rw [getCell_setCell_ne (show ¬(fr = jr ∧ fc = jc) by omega),
      getCell_setCell_ne (show ¬(tr = jr ∧ tc = jc) by omega)]
    exact hq
  have e3 := countColor_setCell_of_some lenb1 hvj hcellj none col
  rw [hcolnone] at e3
  simp only [Bool.false_eq_true, if_false] at e3
  cases pr with
  | false =>
      rw [if_neg (by simp)]
      by_cases hc : piece.color = col <;> by_cases hqc : q.color = col <;>
        [rw [if_pos hc] at e1 e2; rw [if_pos hc] at e1 e2;
         rw [if_neg hc] at e1 e2; rw [if_neg hc] at e1 e2] <;>
        [rw [if_pos hqc] at e3 ⊢; rw [if_neg hqc] at e3 ⊢;
         rw [if_pos hqc] at e3 ⊢; rw [if_neg hqc] at e3 ⊢] <;> omega
  | true =>
      rw [if_pos rfl]
      have lenb2 :
          (setCell (setCell (setCell b tr tc (some piece)) fr fc none) jr jc none).length =
            64 := by
        rw [length_setCell, lenb1]
      have hcellt :
          getCell (setCell (setCell (setCell b tr tc (some piece)) fr fc none) jr jc none)
            tr tc = some piece := by
        rw [getCell_setCell_ne (show ¬(jr = tr ∧ jc = tc) by omega),
          getCell_setCell_ne (show ¬(fr = tr ∧ fc = tc) by omega),
          getCell_setCell_same hlen hvt]
      have e4 := countColor_setCell_of_some lenb2 hvt hcellt
        (some { piece with isKing := true }) col
      have hcolking : colP col (some { piece with isKing := true }) =
          decide (piece.color = col) := rfl
      rw [hcolking] at e4
      simp only [decide_eq_true_eq] at e4
      by_cases hc : piece.color = col <;> by_cases hqc : q.color = col <;>
        [rw [if_pos hc] at e1 e2 e4; rw [if_pos hc] at e1 e2 e4;
         rw [if_neg hc] at e1 e2 e4; rw [if_neg hc] at e1 e2 e4] <;>
        [rw [if_pos hqc] at e3 ⊢; rw [if_neg hqc] at e3 ⊢;
         rw [if_pos hqc] at e3 ⊢; rw [if_neg hqc] at e3 ⊢] <;> omega

/-! ### Reachable states and the structural invariant -/


theorem stateInv_initial : stateInv initialState := by
  refine ⟨by decide, ?_, by decide, by decide⟩
  intro r c hv he
  obtain ⟨h1, h2, h3, h4⟩ := hv
  interval_cases r <;> interval_cases c <;> revert he <;> decide

/-- The data relevant to `stateInv` extracted from a successful `makeMove`
move lookup: the found move, its membership in `getValidMoves` of the
from-square, and its target coordinates. -/
theorem foundMove_of_isValidMove {s : GameState} {fr fc tr tc : Int}
    (hsub : ∀ m ∈ s.validMoves, m ∈ getValidMoves s.board s.currentPlayer fr fc)
    (hvm : isValidMove s.validMoves tr tc = true) :
    ∃ m, foundMove s fr fc tr tc = some m ∧
      m ∈ getValidMoves s.board s.currentPlayer fr fc ∧ m.row = tr ∧ m.col = tc := by
  unfold isValidMove at hvm
  rw [List.any_eq_true] at hvm
  obtain ⟨m0, hm0, hp0⟩ := hvm
  match hfind : s.validMoves.find? (fun m => decide (m.row = tr ∧ m.col = tc)) with
  | none =>
      have := List.find?_eq_none.mp hfind m0 hm0
      exact absurd hp0 this
  | some m =>
      have hfm : foundMove s fr fc tr tc = some m := by
        unfold foundMove; rw [hfind]
      have hpred := List.find?_some hfind
      simp only [decide_eq_true_eq] at hpred
      exact ⟨m, hfm, hsub m (List.mem_of_find?_eq_some hfind), hpred.1, hpred.2⟩

/-- Both post-jump branches of `makeMove` (forced continuation and turn end)
preserve the structural invariant of the intermediate state, since neither
touches the board or the counters. -/
theorem stateInv_branch (sMid : GameState) (aj : List MoveT) (sel : Option (Int × Int))
    (h : stateInv sMid) :
    stateInv (if aj.length > 0 then { sMid with selectedPiece := sel, validMoves := aj }
              else checkGameOver (switchPlayer sMid)) := by
  split
  · exact h
  · obtain ⟨hb, hr, hw, _⟩ := finish_data sMid
    obtain ⟨h1, h2, h3, h4⟩ := h
    refine ⟨?_, ?_, ?_, ?_⟩
    · rw [hb]; exact h1
    · intro r c hv he; rw [hb]; exact h2 r c hv he
    · rw [hr, hb]; exact h3
    · rw [hw, hb]; exact h4

theorem stateInv_makeMove {s : GameState} {fr fc tr tc : Int}
    (hinv : stateInv s)
    (hsub : ∀ m ∈ s.validMoves, m ∈ getValidMoves s.board s.currentPlayer fr fc)
    (hvm : isValidMove s.validMoves tr tc = true) :
    stateInv (makeMove s fr fc tr tc) := by
  obtain ⟨hlen, hdark, hred, hwhite⟩ := hinv
  obtain ⟨m, hfm, hmmem, hmr, hmc⟩ := foundMove_of_isValidMove hsub hvm
  obtain ⟨piece, hp, hpcol, hvpto, hto, hpar, hnefr, hjfacts⟩ := getValidMoves_sound hmmem
  rw [hmr, hmc] at hvpto hto hpar hnefr
  have hvfrom : validPos fr fc := validPos_of_getCell_some hp
  have hfodd : ¬ (fr + fc) % 2 = 0 := by
    intro h2
    rw [hdark fr fc hvfrom h2] at hp
    exact absurd hp (by simp)
  cases hj : m.isJump with
  | false =>
      rw [makeMove_simple_eq hp hfm hj]
      obtain ⟨hb, hr, hw, _⟩ := finish_data _
      refine ⟨?_, ?_, ?_, ?_⟩
      · rw [hb]
        dsimp only
        split <;> simp only [length_setCell] <;> exact hlen
      · intro r c hv he
        rw [hb]
        dsimp only
        have hnet : ¬(tr = r ∧ tc = c) := by omega
        have hnef : ¬(fr = r ∧ fc = c) := by omega
        split
        · rw [getCell_setCell_ne hnet, getCell_setCell_ne hnef, getCell_setCell_ne hnet]
          exact hdark r c hv he
        · rw [getCell_setCell_ne hnef, getCell_setCell_ne hnet]
          exact hdark r c hv he
      · rw [hr, hb]
        dsimp only
        rw [countColor_relocate hlen hvfrom hvpto hp hto hnefr (promoFlag piece tr)]
        exact hred
      · rw [hw, hb]
        dsimp only
        rw [countColor_relocate hlen hvfrom hvpto hp hto hnefr (promoFlag piece tr)]
        exact hwhite
  | true =>
      obtain ⟨hvpj, hparj, hnejf, hnejt, q, hq, hqc⟩ := hjfacts hj
      rw [hmr, hmc] at hnejt
      rw [makeMove_jump_eq hp hfm hj]
      dsimp only
      have hqop : q.color = piece.color.opponent := by
        cases hc : piece.color <;> cases hc' : q.color <;>
          simp_all [Color.opponent]
      have hcap := countColor_capture hlen hvfrom hvpto hvpj hp hto hq
        (by omega) (by omega) (by omega) (promoFlag piece tr)
      have hdark' : ∀ r c : Int, validPos r c → (r + c) % 2 = 0 →
          getCell (if promoFlag piece tr = true then
            setCell (setCell (setCell (setCell s.board tr tc (some piece)) fr fc none)
              m.jumpRow m.jumpCol none) tr tc (some { piece with isKing := true })
          else setCell (setCell (setCell s.board tr tc (some piece)) fr fc none)
            m.jumpRow m.jumpCol none) r c = none := by
        intro r c hv he
        have hnet : ¬(tr = r ∧ tc = c) := by omega
        have hnef : ¬(fr = r ∧ fc = c) := by omega
        have hnej : ¬(m.jumpRow = r ∧ m.jumpCol = c) := by omega
        split
        · rw [getCell_setCell_ne hnet, getCell_setCell_ne hnej, getCell_setCell_ne hnef,
            getCell_setCell_ne hnet]
          exact hdark r c hv he
        · rw [getCell_setCell_ne hnej, getCell_setCell_ne hnef, getCell_setCell_ne hnet]
          exact hdark r c hv he
      have hlen' :
          (if promoFlag piece tr = true then
            setCell (setCell (setCell (setCell s.board tr tc (some piece)) fr fc none)
              m.jumpRow m.jumpCol none) tr tc (some { piece with isKing := true })
          else setCell (setCell (setCell s.board tr tc (some piece)) fr fc none)
            m.jumpRow m.jumpCol none).length = 64 := by
        split <;> simp only [length_setCell] <;> exact hlen
      apply stateInv_branch
      refine ⟨hlen', hdark', ?_, ?_⟩
      · have hcr := hcap Color.red
        dsimp only
        by_cases hc : piece.color = Color.red
        · rw [if_pos hc]
          have hqw : q.color = Color.white := by rw [hqop, hc]; rfl
          rw [hqw, if_neg (show ¬(Color.white = Color.red) by decide)] at hcr
          omega
        · rw [if_neg hc]
          have hpw : piece.color = Color.white := by
            cases h2 : piece.color
            · exact absurd h2 hc
            · rfl
          have hqr : q.color = Color.red := by rw [hqop, hpw]; rfl
          rw [hqr, if_pos rfl] at hcr
          omega
      · have hcw := hcap Color.white
        dsimp only
        by_cases hc : piece.color = Color.red
        · rw [if_pos hc]
          have hqw : q.color = Color.white := by rw [hqop, hc]; rfl
          rw [hqw, if_pos rfl] at hcw
          omega
        · rw [if_neg hc]
          have hpw : piece.color = Color.white := by
            cases h2 : piece.color
            · exact absurd h2 hc
            · rfl
          have hqr : q.color = Color.red := by rw [hqop, hpw]; rfl
          rw [hqr, if_neg (show ¬(Color.red = Color.white) by decide)] at hcw
          omega

/-! ### Field projections of `makeMove` on a found move -/

/-- Board produced by `makeMove` on a found jump: relocation, capture
removal, promotion overwrite. -/
theorem makeMove_board_jump {s : GameState} {piece : Piece} {m : MoveT} {fr fc tr tc : Int}
    (hp : getCell s.board fr fc = some piece)
    (hfm : foundMove s fr fc tr tc = some m)
    (hj : m.isJump = true) :
    (makeMove s fr fc tr tc).board =
      (if promoFlag piece tr then
        setCell (setCell (setCell (setCell s.board tr tc (some piece)) fr fc none)
          m.jumpRow m.jumpCol none) tr tc (some { piece with isKing := true })
      else setCell (setCell (setCell s.board tr tc (some piece)) fr fc none)
        m.jumpRow m.jumpCol none) := by
  rw [makeMove_jump_eq hp hfm hj]
  dsimp only
  split <;> split <;> first | rfl | exact (finish_data _).1

/-- Board produced by `makeMove` on a found simple move: relocation and
promotion overwrite only. -/
theorem makeMove_board_simple {s : GameState} {piece : Piece} {m : MoveT} {fr fc tr tc : Int}
    (hp : getCell s.board fr fc = some piece)
    (hfm : foundMove s fr fc tr tc = some m)
    (hnj : m.isJump = false) :
    (makeMove s fr fc tr tc).board =
      (if promoFlag piece tr then
        setCell (setCell (setCell s.board tr tc (some piece)) fr fc none) tr tc
          (some { piece with isKing := true })
      else setCell (setCell s.board tr tc (some piece)) fr fc none) := by
  rw [makeMove_simple_eq hp hfm hnj, (finish_data _).1]

/-- Counters produced by `makeMove` on a found jump: exactly one decrement,
of the colour opposite to the mover. -/
theorem makeMove_counters_jump {s : GameState} {piece : Piece} {m : MoveT} {fr fc tr tc : Int}
    (hp : getCell s.board fr fc = some piece)
    (hfm : foundMove s fr fc tr tc = some m)
    (hj : m.isJump = true) :
    (makeMove s fr fc tr tc).redPieces =
      (if piece.color = Color.red then s.redPieces else s.redPieces - 1) ∧
    (makeMove s fr fc tr tc).whitePieces =
      (if piece.color = Color.red then s.whitePieces - 1 else s.whitePieces) := by
  rw [makeMove_jump_eq hp hfm hj]
  dsimp only
  constructor <;> (split <;> split <;>
    first
      | rfl
      | exact (finish_data _).2.1
      | exact (finish_data _).2.2.1)

/-- Counters are untouched by a simple move, promotion included. -/
theorem makeMove_counters_simple {s : GameState} {piece : Piece} {m : MoveT} {fr fc tr tc : Int}
    (hp : getCell s.board fr fc = some piece)
    (hfm : foundMove s fr fc tr tc = some m)
    (hnj : m.isJump = false) :
    (makeMove s fr fc tr tc).redPieces = s.redPieces ∧
    (makeMove s fr fc tr tc).whitePieces = s.whitePieces := by
  rw [makeMove_simple_eq hp hfm hnj]
  exact ⟨(finish_data _).2.1, (finish_data _).2.2.1⟩

/-- History produced by `makeMove` on a found jump: one appended record with
the captured piece read off the relocated board. -/
theorem makeMove_history_jump {s : GameState} {piece : Piece} {m : MoveT} {fr fc tr tc : Int}
    (hp : getCell s.board fr fc = some piece)
    (hfm : foundMove s fr fc tr tc = some m)
    (hj : m.isJump = true) :
    (makeMove s fr fc tr tc).moveHistory =
      s.moveHistory ++ [mkRecord s piece fr fc tr tc true
        ((getCell (setCell (setCell s.board tr tc (some piece)) fr fc none)
            m.jumpRow m.jumpCol).map (fun cp =>
          { row := m.jumpRow, col := m.jumpCol
          , alg := positionToAlg m.jumpRow m.jumpCol
          , color := cp.color, isKing := cp.isKing }))] := by
  rw [makeMove_jump_eq hp hfm hj]
  dsimp only
  split <;> split <;> first | rfl | exact (finish_data _).2.2.2

/-- History produced by `makeMove` on a found simple move: one appended
record with no captured piece. -/
theorem makeMove_history_simple {s : GameState} {piece : Piece} {m : MoveT} {fr fc tr tc : Int}
    (hp : getCell s.board fr fc = some piece)
    (hfm : foundMove s fr fc tr tc = some m)
    (hnj : m.isJump = false) :
    (makeMove s fr fc tr tc).moveHistory =
      s.moveHistory ++ [mkRecord s piece fr fc tr tc false none] := by
  rw [makeMove_simple_eq hp hfm hnj, (finish_data _).2.2.2]

/-- Every reachable state satisfies the structural invariant. -/
theorem reachable_stateInv {s : GameState} (h : Reachable s) : stateInv s := by
  induction h with
  | init => exact stateInv_initial
  | select s row col _ ih => exact ih
  | deselect s _ ih => exact ih
  | move s fr fc tr tc _ hsub hvm ih => exact stateInv_makeMove ih hsub hvm
  | draw s accept _ ih =>
      unfold offerDraw endGame
      split_ifs <;> exact ih
  | resignation s accept _ ih =>
      unfold resign endGame
      split_ifs <;> exact ih

/-! ### Bridging the per-piece jump scan to the serialized move list -/

theorem mem_allMovesFor {s : GameState} {r c : Nat} (hr : r < 8) (hc : c < 8)
    {piece : Piece} (hcell : getCell s.board (r : Int) (c : Int) = some piece)
    (hcol : piece.color = s.currentPlayer) {mv : MoveT}
    (hmv : mv ∈ getValidMoves s.board s.currentPlayer (r : Int) (c : Int)) :
    ({ fromRow := (r : Int), fromCol := (c : Int)
     , fromAlg := positionToAlg (r : Int) (c : Int)
     , toRow := mv.row, toCol := mv.col, toAlg := positionToAlg mv.row mv.col
     , isJump := mv.isJump
     , captured :=
         if mv.isJump then
           some (mv.jumpRow, mv.jumpCol, positionToAlg mv.jumpRow mv.jumpCol)
         else none
     , pieceColor := piece.color
     , pieceIsKing := piece.isKing } : BoardMove) ∈ allMovesFor s := by
  unfold allMovesFor
  rw [List.mem_flatten]
  refine ⟨_, List.mem_map_of_mem _ (List.mem_range.mpr hr), ?_⟩
  rw [List.mem_flatten]
  refine ⟨_, List.mem_map_of_mem _ (List.mem_range.mpr hc), ?_⟩
  rw [hcell]
  dsimp only
  rw [if_pos hcol]
  exact List.mem_map_of_mem _ hmv

theorem exists_jump_in_allMoves {s : GameState} (h : hasAvailableJumps s = true) :
    ∃ bm ∈ allMovesFor s, bm.isJump = true := by
  unfold hasAvailableJumps at h
  rw [List.any_eq_true] at h
  obtain ⟨r, hr, h⟩ := h
  rw [List.any_eq_true] at h
  obtain ⟨c, hc, h⟩ := h
  match hcell : getCell s.board (r : Int) (c : Int) with
  | none => rw [hcell] at h; exact absurd h (by simp)
  | some piece =>
      rw [hcell] at h
      dsimp only at h
      rw [Bool.and_eq_true, decide_eq_true_eq, decide_eq_true_eq] at h
      obtain ⟨hcol, hjlen⟩ := h
      obtain ⟨mv, hmv⟩ := List.exists_mem_of_length_pos hjlen
      have hmvj : mv.isJump = true := by
        have := List.of_mem_filter hmv
        simpa using this
      have hmvmem : mv ∈ getValidMoves s.board s.currentPlayer r c :=
        List.mem_of_mem_filter hmv
      exact ⟨_, mem_allMovesFor (List.mem_range.mp hr) (List.mem_range.mp hc)
        hcell hcol hmvmem, hmvj⟩



end Checkers

namespace Checkers

example : getValidMoves createBoard Color.red 2 1 =
    [ { row := 3, col := 0, isJump := false, jumpRow := 0, jumpCol := 0 }
    , { row := 3, col := 2, isJump := false, jumpRow := 0, jumpCol := 0 } ] := by decide

example : positionToAlg 5 2 = "C3" := by decide

example : algToPosition "C3" = (5, 2) := by decide

end Checkers

namespace Checkers

/-- C1 (amended): whenever any piece of the current player has a jump
available anywhere on the board (`hasAvailableJumps`), the serialized
legal-move set `availableMoves` of `getBoardState` is restricted to jump
moves only and the `mustJump` flag is set. -/
theorem C1_global_jump_filter {s : GameState} (h : hasAvailableJumps s = true) :
    mustJump s = true ∧ ∀ bm ∈ availableMovesFor s, bm.isJump = true := by
  obtain ⟨bm0, hbm0, hbj0⟩ := exists_jump_in_allMoves h
  have hflt : ((allMovesFor s).filter (fun m => m.isJump)).length > 0 := by
    have hmem : bm0 ∈ (allMovesFor s).filter (fun m => m.isJump) :=
      List.mem_filter.mpr ⟨hbm0, by simp [hbj0]⟩
    exact List.length_pos.mpr (List.ne_nil_of_mem hmem)
  constructor
  · unfold mustJump
    simpa using hflt
  · intro bm hbm
    unfold availableMovesFor at hbm
    rw [if_pos hflt] at hbm
    simpa using (List.mem_filter.mp hbm).2

/-- C1 (counterexample to the claim as stated): in `cex1` the current player
red has a jump available (from (2,1)), yet the engine accepts the simple
move (2,5)→(3,4) as a move intent: `selectPiece`/`isValidMove` — the
acceptance test of the click handler — approves it, and `makeMove` applies
it as a non-jump move and passes the turn. -/
theorem C1_counterexample :
    hasAvailableJumps cex1 = true ∧
    isValidMove (selectPiece cex1 2 5).validMoves 3 4 = true ∧
    (selectPiece cex1 2 5).validMoves.all (fun m => !m.isJump) = true ∧
    (makeMove (selectPiece cex1 2 5) 2 5 3 4).moveHistory.map (fun mr => mr.isJump) =
      [false] ∧
    (makeMove (selectPiece cex1 2 5) 2 5 3 4).currentPlayer = Color.white := by
  decide

/-- C1 witness: the amended theorem applied to `cex1`. -/
theorem C1_witness :
    mustJump cex1 = true ∧
    (availableMovesFor cex1).all (fun bm => bm.isJump) = true := by
  have h := C1_global_jump_filter (by decide : hasAvailableJumps cex1 = true)
  exact ⟨h.1, List.all_eq_true.mpr h.2⟩

/-- C2 (amended): `makeMove` itself never validates, so rejection with
unchanged state happens only in the click handler: when the clicked target
fails the `isValidMove` membership test against the current `validMoves`,
`handleClick` leaves the board, the counters, the current player, the
history and the game-over flag untouched (only the selection changes). -/
theorem C2_click_rejection {s : GameState} {sr sc row col : Int}
    (hsel : s.selectedPiece = some (sr, sc))
    (hinvalid : isValidMove s.validMoves row col = false) :
    (handleClick s row col).board = s.board ∧
    (handleClick s row col).currentPlayer = s.currentPlayer ∧
    (handleClick s row col).redPieces = s.redPieces ∧
    (handleClick s row col).whitePieces = s.whitePieces ∧
    (handleClick s row col).moveHistory = s.moveHistory ∧
    (handleClick s row col).gameOver = s.gameOver := by
  unfold handleClick
  rw [hsel]
  dsimp only
  rw [hinvalid]
  simp only [Bool.false_eq_true, if_false]
  split <;> (try split) <;> exact ⟨rfl, rfl, rfl, rfl, rfl, rfl⟩

/-- C2 (counterexample to the claim as stated): the pair (2,1)→(3,1) is not
a member of any legal move set of the initial position — it fails
`isValidMove` and is absent from `getValidMoves` of (2,1) — yet
`makeMove` raises no error and mutates the state: the red piece is
relocated to the light square (3,1), a history record is appended and the
turn passes. -/
theorem C2_counterexample :
    isValidMove initialState.validMoves 3 1 = false ∧
    (getValidMoves initialState.board initialState.currentPlayer 2 1).all
      (fun m => !(decide (m.row = 3 ∧ m.col = 1))) = true ∧
    (makeMove initialState 2 1 3 1).board ≠ initialState.board ∧
    getCell (makeMove initialState 2 1 3 1).board 3 1 = some ⟨Color.red, false⟩ ∧
    (makeMove initialState 2 1 3 1).moveHistory.length = 1 ∧
    (makeMove initialState 2 1 3 1).currentPlayer = Color.white := by
  decide

/-- C2 witness: the amended theorem applied to a selected piece of the
initial position and the illegal target (4,4). -/
theorem C2_witness :
    (handleClick (selectPiece initialState 2 1) 4 4).board =
      (selectPiece initialState 2 1).board ∧
    (handleClick (selectPiece initialState 2 1) 4 4).currentPlayer =
      (selectPiece initialState 2 1).currentPlayer ∧
    (handleClick (selectPiece initialState 2 1) 4 4).redPieces =
      (selectPiece initialState 2 1).redPieces ∧
    (handleClick (selectPiece initialState 2 1) 4 4).whitePieces =
      (selectPiece initialState 2 1).whitePieces ∧
    (handleClick (selectPiece initialState 2 1) 4 4).moveHistory =
      (selectPiece initialState 2 1).moveHistory ∧
    (handleClick (selectPiece initialState 2 1) 4 4).gameOver =
      (selectPiece initialState 2 1).gameOver :=
  C2_click_rejection rfl (by decide)

/-- C3: after `gameOver` is set, the three mutating entry points — the
board click listener, `offerDraw` and `resign` — all return the state
unchanged, whatever their further inputs. -/
theorem C3_reject_after_over {s : GameState} (h : s.gameOver = true) :
    (∀ row col : Int, boardClick s row col = s) ∧
    (∀ accept : Bool, offerDraw s accept = s) ∧
    (∀ accept : Bool, resign s accept = s) := by
  refine ⟨fun row col => ?_, fun accept => ?_, fun accept => ?_⟩
  · unfold boardClick
    rw [if_pos h]
  · unfold offerDraw
    rw [if_pos h]
  · unfold resign
    rw [if_pos h]

/-- C3 witness: the rejection theorem applied to a finished game. -/
theorem C3_witness :
    boardClick cexOver 2 1 = cexOver ∧
    offerDraw cexOver true = cexOver ∧
    resign cexOver true = cexOver :=
  ⟨(C3_reject_after_over rfl).1 2 1, (C3_reject_after_over rfl).2.1 true,
    (C3_reject_after_over rfl).2.2 true⟩

end Checkers

namespace Checkers

/-- C4: when an applied move is a found jump and the same piece has at
least one further jump from the landing square, the turn does not pass —
`currentPlayer` is unchanged — and the engine's legal set (`validMoves`,
with the landing square selected) becomes exactly that piece's jump moves,
all of which are jumps. -/
theorem C4_chain_continuation {s : GameState} {piece : Piece} {m : MoveT}
    {fr fc tr tc : Int}
    (hp : getCell s.board fr fc = some piece)
    (hfm : foundMove s fr fc tr tc = some m)
    (hj : m.isJump = true)
    (hcont : ((getValidMoves (makeMove s fr fc tr tc).board s.currentPlayer tr tc).filter
        (fun x => x.isJump)).length > 0) :
    (makeMove s fr fc tr tc).currentPlayer = s.currentPlayer ∧
    (makeMove s fr fc tr tc).selectedPiece = some (tr, tc) ∧
    (makeMove s fr fc tr tc).validMoves =
      (getValidMoves (makeMove s fr fc tr tc).board s.currentPlayer tr tc).filter
        (fun x => x.isJump) ∧
    ∀ mv ∈ (makeMove s fr fc tr tc).validMoves, mv.isJump = true := by
  have hb := makeMove_board_jump hp hfm hj
  rw [hb] at hcont
  rw [makeMove_jump_eq hp hfm hj]
  dsimp only
  rw [if_pos hcont]
  refine ⟨rfl, rfl, rfl, ?_⟩
  intro mv hmv
  simpa using (List.mem_filter.mp hmv).2

/-- C4 witness: the double-jump position `cex4` after the first jump
(2,1)→(4,3). -/
theorem C4_witness :
    (makeMove cex4 2 1 4 3).currentPlayer = cex4.currentPlayer ∧
    (makeMove cex4 2 1 4 3).selectedPiece = some (4, 3) ∧
    (makeMove cex4 2 1 4 3).validMoves =
      (getValidMoves (makeMove cex4 2 1 4 3).board cex4.currentPlayer 4 3).filter
        (fun x => x.isJump) ∧
    (makeMove cex4 2 1 4 3).validMoves.all (fun mv => mv.isJump) = true := by
  have h := @C4_chain_continuation cex4 ⟨Color.red, false⟩ ⟨4, 3, true, 3, 2⟩ 2 1 4 3
    (by decide) (by decide) (by decide) (by decide)
  exact ⟨h.1, h.2.1, h.2.2.1, List.all_eq_true.mpr h.2.2.2⟩

/-- C5: terminal evaluation order of `checkGameOver` — red elimination
first, then white elimination, then no-valid-moves loss for the player about
to move (the opponent is declared winner), otherwise the state is left
unchanged; and `endGame` is what sets the terminal flag. -/
theorem C5_terminal_order (s : GameState) :
    (s.redPieces = 0 → checkGameOver s = endGame s "White wins! All red pieces captured.") ∧
    (s.redPieces ≠ 0 → s.whitePieces = 0 →
      checkGameOver s = endGame s "Red wins! All white pieces captured.") ∧
    (s.redPieces ≠ 0 → s.whitePieces ≠ 0 → hasValidMoves s = false →
      checkGameOver s = endGame s (winnerName s.currentPlayer ++ " wins! " ++
        colorName s.currentPlayer ++ " has no valid moves.")) ∧
    (s.redPieces ≠ 0 → s.whitePieces ≠ 0 → hasValidMoves s = true → checkGameOver s = s) ∧
    (∀ msg : String, (endGame s msg).gameOver = true) := by
  refine ⟨?_, ?_, ?_, ?_, fun msg => rfl⟩
  · intro h1
    unfold checkGameOver
    rw [if_pos h1]
  · intro h1 h2
    unfold checkGameOver
    rw [if_neg h1, if_pos h2]
  · intro h1 h2 h3
    unfold checkGameOver
    rw [if_neg h1, if_neg h2, if_pos (by simp [h3])]
  · intro h1 h2 h3
    unfold checkGameOver
    rw [if_neg h1, if_neg h2, if_neg (by simp [h3])]

/-- C5 witness: each of the four cases at a concrete state — red
eliminated, white eliminated, a blocked red player, and the ongoing initial
position. -/
theorem C5_witness :
    checkGameOver cexRedElim = endGame cexRedElim "White wins! All red pieces captured." ∧
    checkGameOver cexWhiteElim = endGame cexWhiteElim "Red wins! All white pieces captured." ∧
    checkGameOver cexBlocked = endGame cexBlocked "White wins! red has no valid moves." ∧
    checkGameOver initialState = initialState ∧
    (endGame initialState "Game Over").gameOver = true := by
  have h3 := (C5_terminal_order cexBlocked).2.2.1 (by decide) (by decide) (by decide)
  have hmsg : winnerName cexBlocked.currentPlayer ++ " wins! " ++
      colorName cexBlocked.currentPlayer ++ " has no valid moves." =
      "White wins! red has no valid moves." := by decide
  rw [hmsg] at h3
  exact ⟨(C5_terminal_order cexRedElim).1 (by decide),
    (C5_terminal_order cexWhiteElim).2.1 (by decide) (by decide),
    h3,
    (C5_terminal_order initialState).2.2.2.1 (by decide) (by decide) (by decide),
    (C5_terminal_order initialState).2.2.2.2 "Game Over"⟩

end Checkers

namespace Checkers

/-- C6: on every applied (found, legal) move the appended history record's
`wasPromoted` flag is set exactly when the moved piece was not a king and
landed on its farthest rank (row 7 for red, row 0 for white); the piece at
the landing square is promoted in place in that case and keeps its king flag
otherwise — in particular a king arriving there is not re-promoted. -/
theorem C6_promotion {s : GameState} {piece : Piece} {m : MoveT} {fr fc tr tc : Int}
    (hlen : s.board.length = 64)
    (hp : getCell s.board fr fc = some piece)
    (hfm : foundMove s fr fc tr tc = some m)
    (hmem : m ∈ getValidMoves s.board s.currentPlayer fr fc) :
    ((makeMove s fr fc tr tc).moveHistory.getLast?.map (fun mr => mr.wasPromoted)) =
      some (promoFlag piece tr) ∧
    (promoFlag piece tr = true ↔
      piece.isKing = false ∧
        ((piece.color = Color.red ∧ tr = 7) ∨ (piece.color = Color.white ∧ tr = 0))) ∧
    getCell (makeMove s fr fc tr tc).board tr tc =
      some { color := piece.color, isKing := piece.isKing || promoFlag piece tr } := by
  obtain ⟨hmr, hmc, _⟩ := foundMove_spec hfm
  obtain ⟨piece', hp', hpcol, hvpto, hto, hpar, hnefr, hjf⟩ := getValidMoves_sound hmem
  rw [hp] at hp'
  have hpe : piece = piece' := Option.some.inj hp'
  subst hpe
  rw [hmr, hmc] at hvpto hto hnefr
  have hnft : ¬(fr = tr ∧ fc = tc) := fun hcon => hnefr ⟨hcon.1.symm, hcon.2.symm⟩
  refine ⟨?_, ?_, ?_⟩
  · cases hjc : m.isJump with
    | false => rw [makeMove_history_simple hp hfm hjc, List.getLast?_concat]; rfl
    | true => rw [makeMove_history_jump hp hfm hjc, List.getLast?_concat]; rfl
  · unfold promoFlag
    rw [Bool.and_eq_true, Bool.not_eq_true', Bool.or_eq_true, decide_eq_true_eq,
      decide_eq_true_eq]
  · cases hjc : m.isJump with
    | false =>
        rw [makeMove_board_simple hp hfm hjc]
        by_cases hpr : promoFlag piece tr = true
        · rw [if_pos hpr, hpr, Bool.or_true]
          exact getCell_setCell_same (by simp [length_setCell, hlen]) hvpto _
        · have hprf : promoFlag piece tr = false := by
            revert hpr; cases promoFlag piece tr <;> simp
          rw [if_neg hpr, hprf, Bool.or_false]
          rw [getCell_setCell_ne hnft, getCell_setCell_same hlen hvpto]
    | true =>
        obtain ⟨hvpj, hparj, hnejf, hnejt, q, hq, hqc⟩ := hjf hjc
        rw [hmr, hmc] at hnejt
        rw [makeMove_board_jump hp hfm hjc]
        by_cases hpr : promoFlag piece tr = true
        · rw [if_pos hpr, hpr, Bool.or_true]
          exact getCell_setCell_same (by simp [length_setCell, hlen]) hvpto _
        · have hprf : promoFlag piece tr = false := by
            revert hpr; cases promoFlag piece tr <;> simp
          rw [if_neg hpr, hprf, Bool.or_false]
          rw [getCell_setCell_ne (show ¬(m.jumpRow = tr ∧ m.jumpCol = tc) by omega),
            getCell_setCell_ne hnft, getCell_setCell_same hlen hvpto]

/-- C6 witness: the capture-and-promote move of `cex9`, where red jumps
from (5,2) over (6,3) onto the farthest rank at (7,4). -/
theorem C6_witness :
    ((makeMove cex9 5 2 7 4).moveHistory.getLast?.map (fun mr => mr.wasPromoted)) =
      some (promoFlag ⟨Color.red, false⟩ 7) ∧
    (promoFlag (⟨Color.red, false⟩ : Piece) 7 = true ↔
      (⟨Color.red, false⟩ : Piece).isKing = false ∧
        (((⟨Color.red, false⟩ : Piece).color = Color.red ∧ (7 : Int) = 7) ∨
         ((⟨Color.red, false⟩ : Piece).color = Color.white ∧ (7 : Int) = 0))) ∧
    getCell (makeMove cex9 5 2 7 4).board 7 4 =
      some { color := Color.red
           , isKing := (false || promoFlag ⟨Color.red, false⟩ 7) } :=
  @C6_promotion cex9 ⟨Color.red, false⟩ ⟨7, 4, true, 6, 3⟩ 5 2 7 4
    (by decide) (by decide) (by decide) (by decide)

/-- C7: in every reachable state every light square — `(row+col)` even — is
empty; equivalently, every occupied square is dark. -/
theorem C7_light_squares_empty {s : GameState} (h : Reachable s) :
    ∀ r c : Int, validPos r c → (r + c) % 2 = 0 → getCell s.board r c = none :=
  fun r c hv he => (reachable_stateInv h).2.1 r c hv he

/-- C7 witness: two light squares of the initial position. -/
theorem C7_witness :
    getCell initialState.board 0 0 = none ∧ getCell initialState.board 3 3 = none :=
  ⟨C7_light_squares_empty Reachable.init 0 0 (by decide) (by decide),
   C7_light_squares_empty Reachable.init 3 3 (by decide) (by decide)⟩

/-- C8: in every reachable state the two counters agree with the board and
their sum is the number of occupied squares; and per applied move, a found
jump decrements exactly the opposing colour's counter while a simple move
(promotion included) changes neither counter. -/
theorem C8_counter_invariants :
    (∀ s : GameState, Reachable s →
      s.redPieces = (countColor s.board Color.red : Int) ∧
      s.whitePieces = (countColor s.board Color.white : Int) ∧
      s.redPieces + s.whitePieces = (countOccupied s.board : Int)) ∧
    (∀ (s : GameState) (piece : Piece) (m : MoveT) (fr fc tr tc : Int),
      getCell s.board fr fc = some piece →
      foundMove s fr fc tr tc = some m →
      ((m.isJump = false →
          (makeMove s fr fc tr tc).redPieces = s.redPieces ∧
          (makeMove s fr fc tr tc).whitePieces = s.whitePieces) ∧
       (m.isJump = true → piece.color = Color.red →
          (makeMove s fr fc tr tc).redPieces = s.redPieces ∧
          (makeMove s fr fc tr tc).whitePieces = s.whitePieces - 1) ∧
       (m.isJump = true → piece.color = Color.white →
          (makeMove s fr fc tr tc).redPieces = s.redPieces - 1 ∧
          (makeMove s fr fc tr tc).whitePieces = s.whitePieces))) := by
  constructor
  · intro s hs
    obtain ⟨_, _, hr, hw⟩ := reachable_stateInv hs
    refine ⟨hr, hw, ?_⟩
    rw [hr, hw, countOccupied_eq_sum]
    push_cast
    ring
  · intro s piece m fr fc tr tc hp hfm
    refine ⟨fun hnj => makeMove_counters_simple hp hfm hnj, ?_, ?_⟩
    · intro hj hcr
      obtain ⟨h1, h2⟩ := makeMove_counters_jump hp hfm hj
      rw [if_pos hcr] at h1 h2
      exact ⟨h1, h2⟩
    · intro hj hcw
      obtain ⟨h1, h2⟩ := makeMove_counters_jump hp hfm hj
      rw [if_neg (show ¬piece.color = Color.red by rw [hcw]; exact fun hcon => by cases hcon)]
        at h1 h2
      exact ⟨h1, h2⟩

/-- C8 witness: the invariant at the initial position and the counter
effect of the red jump in `cex4`. -/
theorem C8_witness :
    (initialState.redPieces = (countColor initialState.board Color.red : Int) ∧
     initialState.whitePieces = (countColor initialState.board Color.white : Int) ∧
     initialState.redPieces + initialState.whitePieces =
       (countOccupied initialState.board : Int)) ∧
    (makeMove cex4 2 1 4 3).redPieces = cex4.redPieces ∧
    (makeMove cex4 2 1 4 3).whitePieces = cex4.whitePieces - 1 :=
  ⟨C8_counter_invariants.1 initialState Reachable.init,
   (C8_counter_invariants.2 cex4 ⟨Color.red, false⟩ ⟨4, 3, true, 3, 2⟩ 2 1 4 3
     (by decide) (by decide)).2.1 rfl rfl⟩

end Checkers

namespace Checkers

/-- C9: the exported notation of every applied (found, legal) move is
`"<from>x<captured>"` for a jump — using the captured piece's square, not
the landing square — and `"<from>-<to>"` for a simple move, with `"=K"`
appended exactly when the move promoted the piece. -/
theorem C9_record_format {s : GameState} {piece : Piece} {m : MoveT} {fr fc tr tc : Int}
    (hp : getCell s.board fr fc = some piece)
    (hfm : foundMove s fr fc tr tc = some m)
    (hmem : m ∈ getValidMoves s.board s.currentPlayer fr fc) :
    ((makeMove s fr fc tr tc).moveHistory.getLast?.map formatMoveString) =
      some ((if m.isJump = true then
               positionToAlg fr fc ++ "x" ++ positionToAlg m.jumpRow m.jumpCol
             else positionToAlg fr fc ++ "-" ++ positionToAlg tr tc) ++
            (if promoFlag piece tr = true then "=K" else "")) := by
  obtain ⟨hmr, hmc, _⟩ := foundMove_spec hfm
  obtain ⟨piece', hp', hpcol, hvpto, hto, hpar, hnefr, hjf⟩ := getValidMoves_sound hmem
  rw [hp] at hp'
  have hpe : piece = piece' := Option.some.inj hp'
  subst hpe
  cases hjc : m.isJump with
  | false =>
      rw [makeMove_history_simple hp hfm hjc, List.getLast?_concat]
      simp only [Option.map_some']
      unfold formatMoveString mkRecord
      dsimp only
      simp only [Bool.false_eq_true, if_false]
      by_cases hpr : promoFlag piece tr = true
      · rw [if_pos hpr, if_pos hpr]
      · rw [if_neg hpr, if_neg hpr, String.append_empty]
  | true =>
      obtain ⟨hvpj, hparj, hnejf, hnejt, q, hq, hqc⟩ := hjf hjc
      rw [hmr, hmc] at hnejt
      have hcellb1 :
          getCell (setCell (setCell s.board tr tc (some piece)) fr fc none)
            m.jumpRow m.jumpCol = some q := by
        rw [getCell_setCell_ne (show ¬(fr = m.jumpRow ∧ fc = m.jumpCol) by omega),
          getCell_setCell_ne (show ¬(tr = m.jumpRow ∧ tc = m.jumpCol) by omega)]
        exact hq
      rw [makeMove_history_jump hp hfm hjc, List.getLast?_concat, hcellb1]
      simp only [Option.map_some']
      unfold formatMoveString mkRecord
      dsimp only
      simp only [if_true]
      by_cases hpr : promoFlag piece tr = true
      · rw [if_pos hpr, if_pos hpr]
      · rw [if_neg hpr, if_neg hpr, String.append_empty]

/-- C9 witness: the capture-with-promotion move of `cex9` exports as
`"C3xD2=K"` — from square C3, captured square D2, promotion suffix. -/
theorem C9_witness :
    ((makeMove cex9 5 2 7 4).moveHistory.getLast?.map formatMoveString) =
      some "C3xD2=K" := by
  have h := @C9_record_format cex9 ⟨Color.red, false⟩ ⟨7, 4, true, 6, 3⟩ 5 2 7 4
    (by decide) (by decide) (by decide)
  rw [h]
  decide

/-- C10: converting a board coordinate pair to algebraic notation and
parsing it back is the identity on the whole board range. -/
theorem C10_roundtrip : ∀ r c : Int, 0 ≤ r → r ≤ 7 → 0 ≤ c → c ≤ 7 →
    algToPosition (positionToAlg r c) = (r, c) := by
  intro r c h1 h2 h3 h4
  interval_cases r <;> interval_cases c <;> decide

/-- C10 witness: the roundtrip at (3,4) and at the corners. -/
theorem C10_witness :
    algToPosition (positionToAlg 3 4) = (3, 4) ∧
    algToPosition (positionToAlg 0 0) = (0, 0) ∧
    algToPosition (positionToAlg 7 7) = (7, 7) :=
  ⟨C10_roundtrip 3 4 (by decide) (by decide) (by decide) (by decide),
   C10_roundtrip 0 0 (by decide) (by decide) (by decide) (by decide),
   C10_roundtrip 7 7 (by decide) (by decide) (by decide) (by decide)⟩

end Checkers
